import Mathlib

/-!
# cloudpan189-go: interactive shell front-end (`main.go`)

A shallow embedding of the tab completer (`line.State.SetCompleter`, lines 123-207),
the dispatch loop (lines 213-254) and the command table (lines 258-327), together with
the library functions they call (`strings`, `path`, `urfave/cli` command lookup).

Go strings are embedded as Lean `String`, a sequence of Unicode characters, that is
well-formed UTF-8 text.  Positions (`strings.LastIndex`, `len`) are counted in UTF-8
bytes as in Go.  The separators the program looks for (space, slash, dot) are one-byte
characters, and on well-formed UTF-8 a byte prefix/suffix test against well-formed
text agrees with the character prefix/suffix test.

Functions of the packages of the repository that are not part of the source unit
(`args.Parse`, `cmdutil.ContainsString`, `line.Pause`, `line.Resume`) are modelled from
the specification and marked so; `cmdconfig.Config.ActiveUser().Workdir`, `os.Args[0]`,
the result of `line.State.Prompt` and the effect of `c.App.Run` are inputs.
-/

namespace Cloudpan

/-! ## Package `strings` -/

/-- Go `len(s)` for a string: the number of bytes of its UTF-8 encoding. -/
def byteLen : List Char → Nat
  | [] => 0
  | c :: cs => c.utf8Size + byteLen cs

/-- Go `len(s)`. -/
def len (s : String) : Int := (byteLen s.data : Nat)

/-- Go `strings.HasPrefix(s, prefix)`. -/
def hasPrefix (s pre : String) : Bool := pre.data.isPrefixOf s.data

/-- Go `strings.HasSuffix(s, suffix)`. -/
def hasSuffix (s suf : String) : Bool := suf.data.isSuffixOf s.data

/-- Scan for `strings.LastIndex` with a one-character separator: `i` is the byte offset of
the next character, `acc` the offset of the last occurrence seen so far (`-1` if none). -/
def lastIndexAux (sep : Char) : List Char → Nat → Int → Int
  | [], _, acc => acc
  | c :: cs, i, acc => lastIndexAux sep cs (i + c.utf8Size) (if c = sep then (i : Int) else acc)

/-- Go `strings.LastIndex(s, sep)` for a one-character separator `sep`: the byte offset of
the last occurrence of `sep` in `s`, or `-1` when there is none. -/
def lastIndex (s : String) (sep : Char) : Int := lastIndexAux sep s.data 0 (-1)

/-! ## Package `path` -/

/-- Go `path.IsAbs`: `len(path) > 0 && path[0] == '/'`. -/
def pathIsAbs (p : String) : Bool :=
  match p.data with
  | [] => false
  | c :: _ => c == '/'

/-- State of the `path.Clean` loop: `out` is the output buffer `buf[:w]` and `dotdot` the
index in it where `..` must stop backtracking. -/
structure CleanState where
  out : List Char
  dotdot : Nat

/-- The backtracking inner loop of `path.Clean` for a `..` element:
`out.w--; for out.w > dotdot && out.index(out.w) != '/' { out.w-- }`.  The argument is the
reversed buffer `buf[:w+1]` (so its head is `buf[w]`, the byte the loop inspects); the
result is the reversed `buf[:w]` at loop exit. -/
def cleanBacktrack (dotdot : Nat) : List Char → List Char
  | [] => []
  | c :: rev => if rev.length > dotdot && c != '/' then cleanBacktrack dotdot rev else rev

/-- Copy of a real path element in `path.Clean`:
`for ; r < n && path[r] != '/'; r++ { out.append(path[r]) }`; returns the extended buffer
and the unread rest. -/
def cleanCopy : List Char → List Char → List Char × List Char
  | out, [] => (out, [])
  | out, c :: rest => if c == '/' then (out, c :: rest) else cleanCopy (out ++ [c]) rest

/-- The main loop `for r < n` of `path.Clean`; `rest` is `path[r:]`.  Every turn reads at
least one byte, so `fuel = n` turns suffice. -/
def cleanLoop (rooted : Bool) : Nat → CleanState → List Char → CleanState
  | 0, st, _ => st
  | _, st, [] => st
  | fuel + 1, st, c :: rest =>
    if c == '/' then
      -- empty path element
      cleanLoop rooted fuel st rest
    else if c == '.' && (rest.isEmpty || rest.head? == some '/') then
      -- . element
      cleanLoop rooted fuel st rest
    else if c == '.' && rest.head? == some '.' &&
        ((rest.drop 1).isEmpty || (rest.drop 1).head? == some '/') then
      -- .. element: remove to last /
      if st.out.length > st.dotdot then
        let kept := (cleanBacktrack st.dotdot st.out.reverse).reverse
        cleanLoop rooted fuel { st with out := kept } (rest.drop 1)
      else if !rooted then
        let out1 := if st.out.length > 0 then st.out ++ ['/'] else st.out
        let out2 := out1 ++ ['.', '.']
        cleanLoop rooted fuel { out := out2, dotdot := out2.length } (rest.drop 1)
      else
        cleanLoop rooted fuel st (rest.drop 1)
    else
      -- real path element: add slash if needed, then copy the element
      let out1 :=
        if (rooted && st.out.length != 1) || (!rooted && st.out.length != 0) then st.out ++ ['/']
        else st.out
      let r := cleanCopy out1 (c :: rest)
      cleanLoop rooted fuel { st with out := r.1 } r.2

/-- Go `path.Clean`. -/
def pathClean (p : String) : String :=
  match p.data with
  | [] => "."
  | c :: rest =>
    let rooted := c == '/'
    let st := if rooted then
        cleanLoop rooted p.data.length { out := ['/'], dotdot := 1 } rest
      else
        cleanLoop rooted p.data.length { out := [], dotdot := 0 } (c :: rest)
    if st.out.length == 0 then "." else String.mk st.out

/-- The directory part of Go `path.Split`: `path[:i+1]` with `i` the position of the last
slash. -/
def splitDir (p : List Char) : List Char :=
  (p.reverse.dropWhile (fun c => c != '/')).reverse

/-- Go `path.Dir`: `Clean` of the directory part of `Split`. -/
def pathDir (p : String) : String := pathClean (String.mk (splitDir p.data))

/-- The buffer loop of Go `path.Join`: non-empty elements separated by one slash. -/
def joinBuf : List Char → List String → List Char
  | buf, [] => buf
  | buf, e :: es =>
    if buf.length > 0 || e != "" then
      joinBuf ((if buf.length > 0 then buf ++ ['/'] else buf) ++ e.data) es
    else joinBuf buf es

/-- Go `path.Join`. -/
def pathJoin (elem : List String) : String :=
  if (elem.map (fun e => byteLen e.data)).sum == 0 then ""
  else pathClean (String.mk (joinBuf [] elem))

/-! ## Package `urfave/cli`: commands and lookup -/

/-- A Go `error` value as the handlers of this program produce it: a `*cli.ExitError`
(`cli.NewExitError(message, exitCode)`) or any other error. -/
inductive GoError where
  | exitError (message : String) (exitCode : Int)
  | other (message : String)
  deriving DecidableEq, Repr

/-- Go `cli.NewExitError(message, exitCode)`. -/
def NewExitError (message : String) (exitCode : Int) : GoError := GoError.exitError message exitCode

/-- The part of `*cli.Context` a handler of this program reads: the positional arguments. -/
structure Context where
  args : List String

/-- The fields of `cli.Command` that the shell reads; `Action` returns `none` for a `nil`
error. -/
structure Command where
  Name : String
  ShortName : String
  Aliases : List String
  Action : Context → Option GoError

/-- Go `Command.Names()`: the name, the short name when set, then the aliases. -/
def Command.Names (c : Command) : List String :=
  [c.Name] ++ (if c.ShortName != "" then [c.ShortName] else []) ++ c.Aliases

/-- Go `Command.HasName(name)`. -/
def Command.HasName (c : Command) (name : String) : Bool := c.Names.any (fun n => n == name)

/-- Go `Command.FullName()` of a top-level command (no `commandNamePath`): its `Name`. -/
def Command.FullName (c : Command) : String := c.Name

/-- Go `App.Command(name)`: the first command of the table that has the name, or `nil`. -/
def AppCommand (commands : List Command) (name : String) : Option Command :=
  commands.find? (fun c => c.HasName name)

/-! ## The command table (lines 258-327) -/

/-- Handler of `login` (lines 274-284): prints and returns `nil` on both branches. -/
def loginAction (c : Context) : Option GoError :=
  if c.args.length == 0 then none else none

/-- Handler of `clear` (lines 305-308). -/
def clearAction (_ : Context) : Option GoError := none

/-- Handler of `quit` (lines 317-319). -/
def quitAction (_ : Context) : Option GoError := some (NewExitError "" 0)

/-- Command `login` (lines 260-296). -/
def loginCommand : Command :=
  { Name := "login", ShortName := "", Aliases := [], Action := loginAction }

/-- Command `clear` (lines 298-309). -/
def clearCommand : Command :=
  { Name := "clear", ShortName := "", Aliases := ["cls"], Action := clearAction }

/-- Command `quit` (lines 311-322). -/
def quitCommand : Command :=
  { Name := "quit", ShortName := "", Aliases := ["exit"], Action := quitAction }

/-- The literal assigned to `app.Commands` at line 258, in declaration order. -/
def declaredCommands : List Command := [loginCommand, clearCommand, quitCommand]

/-- Comparison of two names by code points, the order of `cli.CommandsByName.Less` on the
names of this table. -/
def nameLess : List Char → List Char → Bool
  | [], [] => false
  | [], _ :: _ => true
  | _ :: _, [] => false
  | a :: as, b :: bs =>
    if a.toNat < b.toNat then true else if b.toNat < a.toNat then false else nameLess as bs

/-- Insertion of one command into a table sorted by name. -/
def insertByName (c : Command) : List Command → List Command
  | [] => [c]
  | d :: ds => if nameLess c.Name.data d.Name.data then c :: d :: ds else d :: insertByName c ds

/-- Go `sort.Sort(cli.CommandsByName(app.Commands))` (line 326): an insertion sort by name,
which is what `sort.Sort` runs on a table of fewer than twelve entries. -/
def sortByName : List Command → List Command
  | [] => []
  | c :: cs => insertByName c (sortByName cs)

/-- Go `cli.ShowCommandHelp(ctx, command)` as far as its error goes, with `commands` the
table `ctx.App.Commands`: `nil` for the empty topic and for a topic that names a command
of the table, and, `app.CommandNotFound` not being set in this program, the exit error
`No help topic for` the topic with exit code 3 otherwise. -/
def ShowCommandHelp (commands : List Command) (command : String) : Option GoError :=
  if command == "" then none
  else if commands.any (fun c => c.HasName command) then none
  else
    some (NewExitError
      ("No help topic for " ++ String.mk [Char.ofNat 39] ++ command ++ String.mk [Char.ofNat 39])
      3)

/-- The built-in `helpCommand` of `urfave/cli` (name `help`, alias `h`), as a member of the
table `commands ++ [helpCommand]`: with an argument it shows the help of that command,
without one the help of the application. -/
def helpCommand (commands : List Command) : Command :=
  { Name := "help", ShortName := "", Aliases := ["h"],
    Action := fun c =>
      match c.args with
      | [] => none
      | first :: _ =>
        if first == "help" || first == "h" then none else ShowCommandHelp commands first }

/-- The step of Go `App.Setup()` that touches the table (`app.HideHelp` is not set in this
program): `if a.Command(helpCommand.Name) == nil { a.Commands = append(a.Commands,
helpCommand) }`. -/
def Setup (commands : List Command) : List Command :=
  if (AppCommand commands "help").isNone then commands ++ [helpCommand commands] else commands

/-- The table `app.Commands` as the interactive shell sees it: the literal of line 258,
sorted at line 326, with the built-in `help` command that the `Setup` of `app.Run`
(line 327) appends before it runs the `Action` of line 97. -/
def appCommands : List Command := Setup (sortByName declaredCommands)

/-! ## The tokenizer `args.Parse` -/

/-- Go `unicode.IsSpace`: the Unicode White_Space code points. -/
def isSpace (r : Char) : Bool :=
  let n := r.toNat
  (9 ≤ n && n ≤ 13) || n == 32 || n == 133 || n == 160 || n == 5760 ||
    (8192 ≤ n && n ≤ 8202) || n == 8232 || n == 8233 || n == 8239 || n == 8287 || n == 12288

/-- Modelled from the spec: the escape marker of the tokenizer `args.Parse`, the
backslash. -/
def CharEscape : Char := Char.ofNat 92

/-- Modelled from the spec: the quote markers of the tokenizer `args.Parse`: single quote,
double quote, back quote. -/
def IsQuote (r : Char) : Bool := r.toNat == 39 || r.toNat == 34 || r.toNat == 96

/-- Modelled from the spec: scanner state of the tokenizer `args.Parse`: the tokens
closed so far, the token being built, the open quote marker if any, whether the previous
character was an escape marker, and whether a token has been started. -/
structure ParseState where
  lineArgs : List String
  buf : List Char
  quoteChar : Option Char
  escaped : Bool
  inToken : Bool

/-- Modelled from the spec: the scan of `args.Parse` (package `cmdliner/args`, not in the
source unit).  Section 4.1: the line is split on whitespace; an escaped whitespace
character or a quoted run of characters becomes part of a single token rather than a
delimiter.  A backslash escapes a following whitespace character, quote or backslash
(and is kept literally otherwise, or when nothing follows it in the line); a quote
marker opens a quoted run that the same marker closes; unquoted, unescaped whitespace
closes the token in progress, and whitespace before a token is skipped.  `rest` is the
unread input, which ends with the space the tokenizer appends to the line. -/
def parseLoop : ParseState → List Char → List String
  | st, [] => st.lineArgs
  | st, r :: rest =>
    let started := st.inToken || !isSpace r
    if st.escaped then
      parseLoop { st with escaped := false, inToken := started, buf := st.buf ++ [r] } rest
    else if r == CharEscape then
      if 2 ≤ rest.length &&
          (rest.head?.any (fun nextChar => isSpace nextChar || IsQuote nextChar || nextChar == CharEscape))
      then parseLoop { st with escaped := true, inToken := started } rest
      else parseLoop { st with inToken := started, buf := st.buf ++ [r] } rest
    else if IsQuote r then
      if st.quoteChar == none then
        parseLoop { st with quoteChar := some r, inToken := started } rest
      else if st.quoteChar == some r then
        parseLoop { st with quoteChar := none, inToken := started } rest
      else parseLoop { st with inToken := started, buf := st.buf ++ [r] } rest
    else if isSpace r then
      if !started then parseLoop { st with inToken := started } rest
      else if st.quoteChar == none then
        parseLoop { st with lineArgs := st.lineArgs ++ [String.mk st.buf], buf := [],
                            inToken := false } rest
      else parseLoop { st with inToken := started, buf := st.buf ++ [r] } rest
    else parseLoop { st with inToken := started, buf := st.buf ++ [r] } rest

/-- Modelled from the spec: `args.Parse` (package `cmdliner/args`, not in the source
unit), the tokenizer of section 4.1: the scan `parseLoop` over the line followed by one
space, which closes a last token in progress.  Empty input yields no token. -/
def Parse (line : String) : List String :=
  parseLoop { lineArgs := [], buf := [], quoteChar := none, escaped := false, inToken := false }
    (line.data ++ [' '])

/-! ## The completer (lines 123-207) -/

/-- Modelled from the spec: `cmdutil.ContainsString` is not in the source unit; the spec
calls the list a fixed allow-list of commands, so it is membership of the string in the
list. -/
def ContainsString (ss : List String) (s : String) : Bool := ss.any (fun x => x == s)

/-- The local `acceptCompleteFileCommands` (lines 127-130). -/
def acceptCompleteFileCommands : List String :=
  ["cd", "cp", "download", "ls", "mkdir", "mv", "rm", "share", "upload", "login",
   "clear", "quit", "exit"]

/-- The local `closed` (line 131): `strings.LastIndex(line, " ") == len(line)-1`. -/
def closed (line : String) : Bool := lastIndex line ' ' == len line - 1

/-- The loops of lines 134-142: for every command, for every one of its names, append
`name+" "` when `line` is a prefix of the name. -/
def nameLoop (commands : List Command) (line : String) : List String :=
  commands.foldl
    (fun s cmd => cmd.Names.foldl
      (fun s name => if !hasPrefix name line then s else s ++ [name ++ " "]) s)
    []

/-- The local `targetPath` (lines 172-180): the last token when the line is not closed,
the empty string otherwise. -/
def targetPath (isClosed : Bool) (lineArgs : List String) : String :=
  if !isClosed then lineArgs.getLastD "" else ""

/-- The first dot case of the switch at lines 182-189. -/
def isDotTarget (t : String) : Bool := t == "." || hasSuffix t "/."

/-- The second dot case of the switch at lines 182-189. -/
def isDotDotTarget (t : String) : Bool := t == ".." || hasSuffix t "/.."

/-- The local `targetDir` (lines 191-204), from the working directory of the active user
and the target path. -/
def targetDir (workdir target : String) : String :=
  let isAbs := pathIsAbs target
  let isDir := lastIndex target '/' == len target - 1
  if isAbs then pathDir target
  else
    let joined := pathJoin [workdir, target]
    if !isDir then pathDir joined else joined

/-- The completer closure of lines 123-207.  `parse` stands for `args.Parse` (package
`cmdliner/args`), `commands` for `app.Commands` and `workdir` for
`cmdconfig.Config.ActiveUser().Workdir`.  The calls to `escaper.EscapeStringsByRuneFunc`
(lines 177, 179) rewrite the elements of the local `lineArgs` in place after `targetPath`
has been copied out; `lineArgs` is not read again, so they leave no trace in the result.
The result is the named return value `s`. -/
def completer (parse : String → List String) (commands : List Command) (workdir : String)
    (line : String) : List String :=
  let lineArgs := parse line
  let numArgs := lineArgs.length
  let s := nameLoop commands line
  match lineArgs with
  | [] => s
  | first :: _ =>
    if numArgs == 1 && !closed line then s
    else
      match AppCommand commands first with
      | none => s
      | some thisCmd =>
        if !ContainsString acceptCompleteFileCommands thisCmd.FullName then s
        else
          let target := targetPath (closed line) lineArgs
          if isDotTarget target then s ++ [line ++ "/"]
          else if isDotDotTarget target then s ++ [line ++ "/"]
          else
            let _dir := targetDir workdir target
            s

/-- The command names and aliases of a table, in table order. -/
def allNames (commands : List Command) : List String := commands.flatMap Command.Names

/-- The candidates the spec describes for a command-name completion: every name or alias
that has `line` as a prefix, in table order, each followed by one space. -/
def prefixCandidates (commands : List Command) (line : String) : List String :=
  ((allNames commands).filter (fun name => hasPrefix name line)).map (fun name => name ++ " ")

/-! ## The dispatch loop (lines 213-254) -/

/-- The terminal mode owned by the line editor. -/
inductive TerminalState where
  | Raw
  | Cooked
  deriving DecidableEq, Repr

/-- Modelled from the spec: `line.Pause` (package `cmdliner`, not in the source unit)
suspends the line editor, taking the terminal from Raw to Cooked; it is not defined on a
terminal that is already suspended. -/
def Pause : TerminalState → Option TerminalState
  | TerminalState.Raw => some TerminalState.Cooked
  | TerminalState.Cooked => none

/-- Modelled from the spec: `line.Resume` (package `cmdliner`, not in the source unit)
restores the line editor, taking the terminal from Cooked to Raw; it is not defined on a
terminal that is not suspended. -/
def Resume : TerminalState → Option TerminalState
  | TerminalState.Cooked => some TerminalState.Raw
  | TerminalState.Raw => none

/-- The cap of `liner` on the number of history entries. -/
def HistoryLimit : Nat := 1000

/-- Go `liner.State.AppendHistory(item)`: an item equal to the last entry is dropped,
otherwise it is appended and the oldest entry leaves when the cap is exceeded. -/
def AppendHistory (history : List String) (item : String) : List String :=
  if history.getLast? == some item then history
  else
    let h := history ++ [item]
    if h.length > HistoryLimit then h.drop 1 else h

/-- Go `cli.HandleExitCoder(err)`, which `App.Run` applies to the error of a handler: the
exit code the process exits with when the error is an exit error, `none` when it goes on. -/
def HandleExitCoder : Option GoError → Option Int
  | some (GoError.exitError _ code) => some code
  | _ => none

/-- The pair `(commandLine, err)` that `line.State.Prompt` returns. -/
inductive ReadResult where
  | line (commandLine : String)
  | aborted
  | failed (err : String)
  deriving DecidableEq, Repr

/-- What `c.App.Run(s)` does to the loop: it returns (with the error of the handler, which
the loop ignores), or the process exits inside it. -/
inductive RunOutcome where
  | returned (err : Option GoError)
  | exited (code : Int)
  deriving DecidableEq, Repr

/-- The calls the loop body makes on its collaborators, in order. -/
inductive Event where
  | appendHistory (item : String)
  | println (err : String)
  | pause
  | run (arguments : List String)
  | resume
  deriving DecidableEq, Repr

/-- The state the loop acts on: terminal mode, in-memory history, log of calls. -/
structure ShellState where
  terminal : TerminalState
  history : List String
  events : List Event
  deriving DecidableEq, Repr

/-- How one turn of the `for` loop ends. -/
inductive StepResult where
  | next (st : ShellState)
  | returned (st : ShellState)
  | exited (code : Int) (st : ShellState)
  | panicked (st : ShellState)
  deriving DecidableEq, Repr

/-- One turn of the loop body from the return of `line.State.Prompt` (line 228) to the end
of the body (line 254).  `parse` stands for `args.Parse`, `run` for `c.App.Run`, `argv0`
for `os.Args[0]`.  `next` is the way back to the prompt (`continue` or the end of the
body), `returned` a `return` from the loop. -/
def iteration (parse : String → List String) (run : List String → RunOutcome) (argv0 : String)
    (read : ReadResult) (st : ShellState) : StepResult :=
  match read with
  | ReadResult.aborted => StepResult.returned st
  | ReadResult.failed err =>
    StepResult.returned { st with events := st.events ++ [Event.println err] }
  | ReadResult.line commandLine =>
    let st1 := { st with history := AppendHistory st.history commandLine,
                         events := st.events ++ [Event.appendHistory commandLine] }
    let cmdArgs := parse commandLine
    if cmdArgs.length == 0 then StepResult.next st1
    else
      let s := [argv0] ++ cmdArgs
      match Pause st1.terminal with
      | none => StepResult.panicked st1
      | some t2 =>
        let st2 := { st1 with terminal := t2, events := st1.events ++ [Event.pause] }
        let st3 := { st2 with events := st2.events ++ [Event.run s] }
        match run s with
        | RunOutcome.exited code => StepResult.exited code st3
        | RunOutcome.returned _ =>
          match Resume st3.terminal with
          | none => StepResult.panicked st3
          | some t4 =>
            StepResult.next { st3 with terminal := t4, events := st3.events ++ [Event.resume] }

/-! ## Lemmas on the library functions -/

theorem cleanCopy_snd_length (out l : List Char) : (cleanCopy out l).2.length ≤ l.length := by
  induction l generalizing out with
  | nil => simp [cleanCopy]
  | cons c rest ih =>
    rw [cleanCopy]
    split_ifs
    · simp
    · exact le_trans (ih _) (by simp)

theorem cleanCopy_cons_snd_length (out : List Char) (c : Char) (rest : List Char)
    (h : ¬ (c == '/') = true) : (cleanCopy out (c :: rest)).2.length ≤ rest.length := by
  rw [cleanCopy, if_neg h]
  exact cleanCopy_snd_length _ _

theorem cleanLoop_nil (rooted : Bool) (fuel : Nat) (st : CleanState) :
    cleanLoop rooted fuel st [] = st := by
  cases fuel <;> rfl

/-- The fuel of `cleanLoop` never runs out before the input does. -/
theorem cleanLoop_fuel (rooted : Bool) (fuel fuel' : Nat) (st : CleanState) (rest : List Char)
    (h : rest.length ≤ fuel) (h' : rest.length ≤ fuel') :
    cleanLoop rooted fuel st rest = cleanLoop rooted fuel' st rest := by
  induction fuel generalizing fuel' st rest with
  | zero =>
    have : rest = [] := List.length_eq_zero.mp (Nat.le_zero.mp h)
    subst this
    rw [cleanLoop_nil, cleanLoop_nil]
  | succ n ih =>
    cases rest with
    | nil => rw [cleanLoop_nil, cleanLoop_nil]
    | cons c rest =>
      cases fuel' with
      | zero => simp at h'
      | succ m =>
        simp only [List.length_cons, Nat.add_le_add_iff_right] at h h'
        have hd : (rest.drop 1).length ≤ rest.length := by simp
        rw [cleanLoop, cleanLoop]
        split_ifs <;> first
          | exact ih _ _ _ h h'
          | exact ih _ _ _ (le_trans hd h) (le_trans hd h')
          | exact ih _ _ _ (le_trans (cleanCopy_cons_snd_length _ c rest (by assumption)) h)
              (le_trans (cleanCopy_cons_snd_length _ c rest (by assumption)) h')

theorem innerLoop_eq (line : String) (names : List String) (s : List String) :
    names.foldl (fun s name => if !hasPrefix name line then s else s ++ [name ++ " "]) s
      = s ++ (names.filter (fun name => hasPrefix name line)).map (fun name => name ++ " ") := by
  induction names generalizing s with
  | nil => simp
  | cons n ns ih =>
    rw [List.foldl_cons, ih]
    by_cases h : hasPrefix n line = true
    · simp [h]
    · simp [h]

theorem outerLoop_eq (line : String) (commands : List Command) (s : List String) :
    commands.foldl
      (fun s cmd => cmd.Names.foldl
        (fun s name => if !hasPrefix name line then s else s ++ [name ++ " "]) s) s
      = s ++ prefixCandidates commands line := by
  induction commands generalizing s with
  | nil => simp [prefixCandidates, allNames]
  | cons c cs ih =>
    rw [List.foldl_cons, ih, innerLoop_eq]
    simp [prefixCandidates, allNames, List.flatMap_cons, List.filter_append]

/-- The two nested loops of lines 134-142 compute the prefix candidates. -/
theorem nameLoop_eq (commands : List Command) (line : String) :
    nameLoop commands line = prefixCandidates commands line := by
  unfold nameLoop
  rw [outerLoop_eq]
  simp

theorem lastIndexAux_le (sep : Char) (cs : List Char) (i : Nat) (acc : Int)
    (h : acc ≤ (i : Int) - 1) : lastIndexAux sep cs i acc ≤ ((i + byteLen cs : Nat) : Int) - 1 := by
  induction cs generalizing i acc with
  | nil => simpa [lastIndexAux, byteLen] using h
  | cons c cs ih =>
    have hc := Char.utf8Size_pos c
    have := ih (i + c.utf8Size) (if c = sep then (i : Int) else acc) (by
      split <;> push_cast <;> omega)
    simp only [lastIndexAux, byteLen]
    have e : i + c.utf8Size + byteLen cs = i + (c.utf8Size + byteLen cs) := by omega
    rw [← e]
    exact this

theorem lastIndexAux_concat (sep : Char) (pre : List Char) (c : Char) (i : Nat) (acc : Int) :
    lastIndexAux sep (pre ++ [c]) i acc
      = if c = sep then ((i + byteLen pre : Nat) : Int) else lastIndexAux sep pre i acc := by
  induction pre generalizing i acc with
  | nil => simp [lastIndexAux, byteLen]
  | cons d ds ih =>
    have e : i + d.utf8Size + byteLen ds = i + (d.utf8Size + byteLen ds) := by omega
    show lastIndexAux sep (ds ++ [c]) (i + d.utf8Size) (if d = sep then (i : Int) else acc) = _
    rw [ih]
    simp only [lastIndexAux, byteLen, e]

theorem byteLen_concat (pre : List Char) (c : Char) :
    byteLen (pre ++ [c]) = byteLen pre + c.utf8Size := by
  induction pre with
  | nil => simp [byteLen]
  | cons d ds ih =>
    show d.utf8Size + byteLen (ds ++ [c]) = d.utf8Size + byteLen ds + c.utf8Size
    rw [ih]; omega

/-- The test `strings.LastIndex(s, sep) == len(s)-1` with a one-byte separator holds
exactly when `s` is empty or its last character is the separator. -/
theorem lastIndex_eq_len_pred (sep : Char) (hsep : sep.utf8Size = 1) (s : String) :
    (lastIndex s sep == len s - 1) = true ↔ (s.data = [] ∨ s.data.getLast? = some sep) := by
  unfold lastIndex len
  rcases List.eq_nil_or_concat s.data with h | ⟨pre, c, h⟩
  · simp [h, lastIndexAux, byteLen]
  · rw [h, List.concat_eq_append, lastIndexAux_concat, byteLen_concat]
    by_cases hc : c = sep
    · subst hc
      simp [hsep]
    · have hle := lastIndexAux_le sep pre 0 (-1) (by simp)
      have hpos := Char.utf8Size_pos c
      simp only [hc, if_false, beq_iff_eq, List.getLast?_concat, Option.some.injEq, or_false]
      constructor
      · intro heq
        exfalso
        rw [heq] at hle
        push_cast at hle
        omega
      · intro h'
        simp at h'

/-- Line 131: `closed` holds exactly for the empty line and the lines whose last character
is a space. -/
theorem closed_iff (line : String) :
    closed line = true ↔ (line.data = [] ∨ line.data.getLast? = some ' ') :=
  lastIndex_eq_len_pred ' ' (by decide) line

theorem isDotTarget_empty : isDotTarget "" = false := by decide

theorem isDotDotTarget_empty : isDotDotTarget "" = false := by decide

theorem isDotTarget_iff (t : String) :
    isDotTarget t = true ↔ (t = "." ∨ hasSuffix t "/." = true) := by
  simp [isDotTarget]

theorem isDotDotTarget_iff (t : String) :
    isDotDotTarget t = true ↔ (t = ".." ∨ hasSuffix t "/.." = true) := by
  simp [isDotDotTarget]

theorem targetPath_closed (lineArgs : List String) : targetPath true lineArgs = "" := by
  simp [targetPath]

/-- On a line with exactly one token the completer returns the name candidates and nothing
else, whether or not the line is closed. -/
theorem completer_one_token (parse : String → List String) (commands : List Command)
    (workdir line tok : String) (h : parse line = [tok]) :
    completer parse commands workdir line = prefixCandidates commands line := by
  unfold completer
  simp only [h, nameLoop_eq, List.length_singleton, beq_self_eq_true, Bool.true_and]
  by_cases hc : closed line = true
  · simp only [hc, Bool.not_true, Bool.false_eq_true, if_false, targetPath_closed,
      isDotTarget_empty, isDotDotTarget_empty]
    split
    · rfl
    · split <;> rfl
  · simp [hc]

/-! ## Lemmas on the tokenizer -/

/-- The scan closes at most one token per whitespace character it reads. -/
theorem parseLoop_length_le (st : ParseState) (rest : List Char) :
    (parseLoop st rest).length ≤ st.lineArgs.length + rest.countP isSpace := by
  induction rest generalizing st with
  | nil => simp [parseLoop]
  | cons r rest ih =>
    rw [parseLoop]
    simp only [List.countP_cons]
    split_ifs <;> refine le_trans (ih _) ?_ <;> (simp_all; try omega)

/-- A line with two tokens or more contains a whitespace character. -/
theorem exists_space_of_two_tokens (line : String) (h : 2 ≤ (Parse line).length) :
    ∃ c ∈ line.data, isSpace c = true := by
  have hle := parseLoop_length_le
    { lineArgs := [], buf := [], quoteChar := none, escaped := false, inToken := false }
    (line.data ++ [' '])
  have hsp : isSpace ' ' = true := by decide
  simp only [List.countP_append, List.length_nil, List.countP_cons, List.countP_nil, hsp,
    if_true] at hle
  have hpos : 0 < line.data.countP isSpace := by
    unfold Parse at h
    omega
  exact List.countP_pos_iff.mp hpos

/-! ## Lemmas on the completer -/

theorem prefixCandidates_eq_nil (commands : List Command) (line : String)
    (h : ∀ name ∈ allNames commands, hasPrefix name line = false) :
    prefixCandidates commands line = [] := by
  unfold prefixCandidates
  rw [List.map_eq_nil_iff, List.filter_eq_nil_iff]
  intro name hn
  simp [h name hn]

theorem hasPrefix_false_of_space (name line : String)
    (hname : ∀ ch ∈ name.data, isSpace ch = false) (hline : ∃ c ∈ line.data, isSpace c = true) :
    hasPrefix name line = false := by
  obtain ⟨c, hc, hsp⟩ := hline
  cases hp : hasPrefix name line with
  | false => rfl
  | true =>
    have hpre := (List.isPrefixOf_iff_prefix.mp hp).subset hc
    rw [hname c hpre] at hsp
    exact absurd hsp (by decide)

theorem appCommands_names_no_space :
    ∀ name ∈ allNames appCommands, ∀ ch ∈ name.data, isSpace ch = false := by
  decide

/-- When the line is not closed and the last token is a dot shorthand of a path-accepting
command, the completer appends `line+"/"` to the name candidates. -/
theorem completer_dot (parse : String → List String) (commands : List Command)
    (workdir line : String) (cmd : Command)
    (hclosed : closed line = false) (hlen : 2 ≤ (parse line).length)
    (hcmd : AppCommand commands ((parse line).headD "") = some cmd)
    (haccept : ContainsString acceptCompleteFileCommands cmd.FullName = true)
    (hdot : isDotTarget ((parse line).getLastD "") = true ∨
      isDotDotTarget ((parse line).getLastD "") = true) :
    completer parse commands workdir line = prefixCandidates commands line ++ [line ++ "/"] := by
  unfold completer
  cases hp : parse line with
  | nil => rw [hp] at hlen; simp at hlen
  | cons first rest =>
    rw [hp] at hlen hcmd hdot
    have hne : ((first :: rest).length == 1) = false := by
      simp only [List.length_cons] at hlen ⊢
      simp only [beq_eq_false_iff_ne, ne_eq]
      omega
    simp only [List.headD_cons] at hcmd
    simp only [nameLoop_eq, hne, Bool.false_and, Bool.false_eq_true, if_false, hcmd, haccept,
      Bool.not_true, hclosed, targetPath, Bool.not_false, if_true]
    rcases hdot with h | h
    · simp only [h, if_true]
    · simp only [h, if_true]
      split_ifs <;> rfl

/-- When no dot case applies, the completer returns the name candidates alone. -/
theorem completer_no_dot (parse : String → List String) (commands : List Command)
    (workdir line : String)
    (h1 : isDotTarget (targetPath (closed line) (parse line)) = false)
    (h2 : isDotDotTarget (targetPath (closed line) (parse line)) = false) :
    completer parse commands workdir line = prefixCandidates commands line := by
  unfold completer
  simp only [nameLoop_eq]
  split
  · rfl
  · simp only [h1, h2, Bool.false_eq_true, if_false]
    split
    · rfl
    · split
      · rfl
      · split <;> rfl

/-! ## The completer: claims -/

/-- C1: for every command table and every line `T` that is a single unclosed token (the
tokenizer yields exactly `[T]` and `T` does not end in a space), the completer returns
exactly `name+" "` for every command name or alias that has `T` as a prefix, in
command-table order, and nothing else. -/
theorem C1_single_token_candidates (parse : String → List String) (commands : List Command)
    (workdir T : String) (hparse : parse T = [T]) (hend : hasSuffix T " " = false) :
    completer parse commands workdir T =
      ((commands.flatMap Command.Names).filter (fun name => hasPrefix name T)).map
        (fun name => name ++ " ") := by
  have _ := hend
  exact completer_one_token parse commands workdir T T hparse

/-- Witness of C1: the line `c` is one unclosed token and completes to `clear` and `cls`. -/
theorem C1_single_token_candidates_witness :
    Parse "c" = ["c"] ∧ hasSuffix "c" " " = false ∧
      completer Parse appCommands "/" "c" = ["clear ", "cls "] :=
  ⟨by decide, by decide,
    (C1_single_token_candidates Parse appCommands "/" "c" (by decide) (by decide)).trans
      (by decide)⟩

/-- C3, as the code has it: for every command table and every line that tokenizes to zero
tokens, the completer returns the command-name candidates of the loop at lines 134-142,
`name+" "` for every name or alias that has the line as a prefix, and no path candidate;
on the empty line that is every name and alias of the table. -/
theorem C3_zero_tokens_candidates (parse : String → List String) (commands : List Command)
    (workdir line : String) (hparse : parse line = []) :
    completer parse commands workdir line =
        ((commands.flatMap Command.Names).filter (fun name => hasPrefix name line)).map
          (fun name => name ++ " ") ∧
      (line = "" →
        completer parse commands workdir line =
          (commands.flatMap Command.Names).map (fun name => name ++ " ")) := by
  have h : completer parse commands workdir line = prefixCandidates commands line := by
    unfold completer
    simp only [hparse, nameLoop_eq]
  refine ⟨h, ?_⟩
  intro hl
  subst hl
  rw [h]
  simp [prefixCandidates, allNames, hasPrefix]

/-- Witness of C3: the line of three spaces has no token and no candidate, the empty line
has no token and every name as a candidate. -/
theorem C3_zero_tokens_candidates_witness :
    Parse "   " = [] ∧ completer Parse appCommands "/" "   " = [] ∧
      completer Parse appCommands "/" "" =
        ["clear ", "cls ", "login ", "quit ", "exit ", "help ", "h "] :=
  ⟨by decide,
    (C3_zero_tokens_candidates Parse appCommands "/" "   " (by decide)).1.trans (by decide),
    ((C3_zero_tokens_candidates Parse appCommands "/" "" (by decide)).2 rfl).trans (by decide)⟩

/-- C3 fails as stated: the empty line tokenizes to zero tokens and the completer returns
the seven names of the command table of the running shell, the built-in `help` and `h`
included. -/
theorem C3_empty_line_counterexample :
    Parse "" = [] ∧
      completer Parse appCommands "/" "" =
        ["clear ", "cls ", "login ", "quit ", "exit ", "help ", "h "] := by
  decide

/-- C4: for every line that is not closed, has at least two tokens, whose first token
resolves to a path-accepting command and whose last token is `.` or `..` or ends in `/.`
or `/..`, the completer returns exactly one candidate, the line with one path delimiter
`/` appended, whatever the working directory. -/
theorem C4_dot_shorthand (workdir line : String) (cmd : Command)
    (hclosed : closed line = false) (hlen : 2 ≤ (Parse line).length)
    (hcmd : AppCommand appCommands ((Parse line).headD "") = some cmd)
    (haccept : ContainsString acceptCompleteFileCommands cmd.FullName = true)
    (hdot : (Parse line).getLastD "" = "." ∨ (Parse line).getLastD "" = ".." ∨
      hasSuffix ((Parse line).getLastD "") "/." = true ∨
      hasSuffix ((Parse line).getLastD "") "/.." = true) :
    completer Parse appCommands workdir line = [line ++ "/"] := by
  have hd : isDotTarget ((Parse line).getLastD "") = true ∨
      isDotDotTarget ((Parse line).getLastD "") = true := by
    rcases hdot with h | h | h | h
    · exact Or.inl ((isDotTarget_iff _).mpr (Or.inl h))
    · exact Or.inr ((isDotDotTarget_iff _).mpr (Or.inl h))
    · exact Or.inl ((isDotTarget_iff _).mpr (Or.inr h))
    · exact Or.inr ((isDotDotTarget_iff _).mpr (Or.inr h))
  rw [completer_dot Parse appCommands workdir line cmd hclosed hlen hcmd haccept hd]
  have hnil : prefixCandidates appCommands line = [] :=
    prefixCandidates_eq_nil appCommands line (fun name hn =>
      hasPrefix_false_of_space name line (appCommands_names_no_space name hn)
        (exists_space_of_two_tokens line hlen))
  rw [hnil]
  rfl

/-- Witness of C4: the line `exit a/..` completes to `exit a/../`. -/
theorem C4_dot_shorthand_witness :
    completer Parse appCommands "/x" "exit a/.." = ["exit a/../"] :=
  C4_dot_shorthand "/x" "exit a/.." quitCommand (by decide) (by decide) (by rfl) (by decide)
    (by decide)

/-- C6, as the code has it: for every line, the flag `closed` is true if and only if the
line is empty or its last character is a space, whether or not that space is escaped; so
it is true for the empty line and for every line that ends in a backslash and a space. -/
theorem C6_closed_flag (line : String) :
    (closed line = true ↔ (line = "" ∨ line.data.getLast? = some ' ')) ∧
      closed (line ++ String.mk [CharEscape, ' ']) = true := by
  constructor
  · rw [closed_iff]
    constructor
    · rintro (h | h)
      · left; exact String.ext h
      · right; exact h
    · rintro (h | h)
      · left; rw [h]
      · right; exact h
  · rw [closed_iff]
    right
    simp [String.data_append]

/-- C6 fails as stated: `closed` is true for the empty line and for the line `a\ `, whose
final space is escaped by a backslash. -/
theorem C6_closed_counterexample :
    closed "" = true ∧ closed (String.mk ['a', CharEscape, ' ']) = true ∧
      Parse (String.mk ['c', 'd', ' ', 'a', CharEscape, ' ']) = ["cd", "a "] := by
  decide

/-- C7, as the code has it: on the line `cd /a/b c`, with `cd` in the allow-list of
path-accepting commands and the working directory `/x`, the tokens are `cd`, `/a/b` and
`c`, the line is not closed, the target token is the last token `c`, it is relative, and
the containing directory of lines 191-204 is `path.Dir(path.Join("/x", "c"))`, that is
`/x`. -/
theorem C7_target_dir :
    ContainsString acceptCompleteFileCommands "cd" = true ∧
      Parse "cd /a/b c" = ["cd", "/a/b", "c"] ∧
      closed "cd /a/b c" = false ∧
      targetPath (closed "cd /a/b c") (Parse "cd /a/b c") = "c" ∧
      pathIsAbs "c" = false ∧
      pathDir (pathJoin ["/x", "c"]) = "/x" ∧
      targetDir "/x" (targetPath (closed "cd /a/b c") (Parse "cd /a/b c")) = "/x" := by
  decide

/-- C7 fails as stated: the containing directory derived on the line `cd /a/b c` with the
working directory `/x` is not `/a/b`. -/
theorem C7_target_dir_counterexample :
    targetDir "/x" (targetPath (closed "cd /a/b c") (Parse "cd /a/b c")) ≠ "/a/b" := by
  decide

/-- C9: the command found under the name `quit` is also found under the name `exit`, its
name is `quit` and its only alias `exit`, and for every invocation context its handler
returns the exit error with exit code 0 and empty message, on which `App.Run` exits the
process with code 0. -/
theorem C9_quit_exit :
    ∃ cmd : Command,
      AppCommand appCommands "quit" = some cmd ∧ AppCommand appCommands "exit" = some cmd ∧
      cmd.Name = "quit" ∧ cmd.Aliases = ["exit"] ∧
      (∀ c : Context, cmd.Action c = some (GoError.exitError "" 0)) ∧
      (∀ c : Context, HandleExitCoder (cmd.Action c) = some 0) :=
  ⟨quitCommand, rfl, rfl, rfl, rfl, fun _ => rfl, fun _ => rfl⟩

/-- C10: for every command table, every working directory and every line that is not a
prefix of any command name, that has at least two tokens or ends in a space, and whose
target token is not a dot shorthand, the completer returns the empty list, also when the
first token resolves to a path-accepting command. -/
theorem C10_no_path_candidates (parse : String → List String) (commands : List Command)
    (workdir line : String)
    (hnames : ∀ c ∈ commands, ∀ name ∈ c.Names, hasPrefix name line = false)
    (hshape : 2 ≤ (parse line).length ∨ hasSuffix line " " = true)
    (hdot : isDotTarget (targetPath (closed line) (parse line)) = false)
    (hdotdot : isDotDotTarget (targetPath (closed line) (parse line)) = false) :
    completer parse commands workdir line = [] := by
  have _ := hshape
  rw [completer_no_dot parse commands workdir line hdot hdotdot]
  apply prefixCandidates_eq_nil
  intro name hn
  obtain ⟨c, hc, hcn⟩ := List.mem_flatMap.mp hn
  exact hnames c hc name hcn

/-- Witness of C10: `login` is a path-accepting command of the table and the line
`login docs/re` has no candidate in the working directories `/x` and `/y`. -/
theorem C10_no_path_candidates_witness :
    (∃ cmd, AppCommand appCommands "login" = some cmd ∧
        ContainsString acceptCompleteFileCommands cmd.FullName = true) ∧
      Parse "login docs/re" = ["login", "docs/re"] ∧
      completer Parse appCommands "/x" "login docs/re" = [] ∧
      completer Parse appCommands "/y" "login docs/re" = [] :=
  ⟨⟨loginCommand, rfl, by decide⟩, by decide,
    C10_no_path_candidates Parse appCommands "/x" "login docs/re" (by decide)
      (Or.inl (by decide)) (by decide) (by decide),
    C10_no_path_candidates Parse appCommands "/y" "login docs/re" (by decide)
      (Or.inl (by decide)) (by decide) (by decide)⟩

/-! ## The dispatch loop: claims -/

/-- A line without token: the turn appends to the history and goes back to the prompt. -/
theorem iteration_no_token (parse : String → List String) (run : List String → RunOutcome)
    (argv0 line : String) (st : ShellState) (hparse : parse line = []) :
    iteration parse run argv0 (ReadResult.line line) st =
      StepResult.next
        { terminal := st.terminal,
          history := AppendHistory st.history line,
          events := st.events ++ [Event.appendHistory line] } := by
  simp [iteration, hparse]

/-- A line with tokens whose run returns: the turn pauses, runs, resumes and goes back to
the prompt. -/
theorem iteration_run_returned (parse : String → List String) (run : List String → RunOutcome)
    (argv0 line : String) (st : ShellState) (err : Option GoError)
    (hraw : st.terminal = TerminalState.Raw) (hp : parse line ≠ [])
    (herr : run ([argv0] ++ parse line) = RunOutcome.returned err) :
    iteration parse run argv0 (ReadResult.line line) st =
      StepResult.next
        { terminal := TerminalState.Raw,
          history := AppendHistory st.history line,
          events := st.events ++ [Event.appendHistory line] ++
            [Event.pause, Event.run ([argv0] ++ parse line), Event.resume] } := by
  have hlen : ((parse line).length == 0) = false := by
    simpa [List.length_eq_zero] using hp
  have herr2 : run (argv0 :: parse line) = RunOutcome.returned err := by simpa using herr
  simp [iteration, hlen, hraw, Pause, herr2, Resume]

/-- C2, as the code has it: for every submitted line that tokenizes to zero tokens, one
turn of the dispatch loop calls `AppendHistory` with the line, once and before the
tokenizer runs, and calls neither `Pause`, `App.Run` nor `Resume`; the history gains the
line unless the line repeats its last entry, the terminal mode is untouched and the loop
goes back to the prompt. -/
theorem C2_zero_tokens_turn (parse : String → List String) (run : List String → RunOutcome)
    (argv0 line : String) (st : ShellState) (hparse : parse line = []) :
    iteration parse run argv0 (ReadResult.line line) st =
      StepResult.next
        { terminal := st.terminal,
          history := AppendHistory st.history line,
          events := st.events ++ [Event.appendHistory line] } :=
  iteration_no_token parse run argv0 line st hparse

/-- Witness of C2: a line of two spaces submitted after the line `login`. -/
theorem C2_zero_tokens_turn_witness :
    Parse "  " = [] ∧
      iteration Parse (fun _ => RunOutcome.returned none) "cloudpan189-go" (ReadResult.line "  ")
          { terminal := TerminalState.Raw, history := ["login"], events := [] } =
        StepResult.next
          { terminal := TerminalState.Raw, history := ["login", "  "],
            events := [Event.appendHistory "  "] } :=
  ⟨by decide,
    (C2_zero_tokens_turn Parse (fun _ => RunOutcome.returned none) "cloudpan189-go" "  "
      { terminal := TerminalState.Raw, history := ["login"], events := [] } (by decide)).trans
      (by decide)⟩

/-- C2 fails as stated: the empty line tokenizes to zero tokens, and the turn of the loop
that reads it calls `AppendHistory` and takes the history from empty to one entry. -/
theorem C2_empty_line_counterexample :
    Parse "" = [] ∧
      iteration Parse (fun _ => RunOutcome.returned none) "cloudpan189-go" (ReadResult.line "")
          { terminal := TerminalState.Raw, history := [], events := [] } =
        StepResult.next
          { terminal := TerminalState.Raw, history := [""],
            events := [Event.appendHistory ""] } := by
  decide

/-- C5: for every turn of the loop that starts with the terminal in Raw and does not end
the loop (the line read has no token, or `App.Run` returns, with or without an error of
the handler), the turn goes back to the prompt with the terminal in Raw, and the calls it
made are `AppendHistory` alone for a line without token, and otherwise `AppendHistory`,
`Pause`, `App.Run`, `Resume` in this order, `Pause` taking effect in Raw and `Resume` in
Cooked. -/
theorem C5_terminal_raw (parse : String → List String) (run : List String → RunOutcome)
    (argv0 line : String) (st : ShellState) (hraw : st.terminal = TerminalState.Raw)
    (hgo : parse line = [] ∨ ∃ err, run ([argv0] ++ parse line) = RunOutcome.returned err) :
    ∃ st', iteration parse run argv0 (ReadResult.line line) st = StepResult.next st' ∧
      st'.terminal = TerminalState.Raw ∧
      st'.events = st.events ++ [Event.appendHistory line] ++
        (if parse line = [] then []
         else [Event.pause, Event.run ([argv0] ++ parse line), Event.resume]) := by
  by_cases hp : parse line = []
  · exact ⟨_, iteration_no_token parse run argv0 line st hp, hraw, by simp [hp]⟩
  · rcases hgo with h | ⟨err, herr⟩
    · exact absurd h hp
    · exact ⟨_, iteration_run_returned parse run argv0 line st err hraw hp herr, rfl,
        by simp [hp]⟩

/-- Witness of C5: the line `login` with a handler that reports a failure. -/
theorem C5_terminal_raw_witness :
    ∃ st', iteration Parse (fun _ => RunOutcome.returned (some (GoError.other "failed")))
        "cloudpan189-go" (ReadResult.line "login")
        { terminal := TerminalState.Raw, history := [], events := [] } = StepResult.next st' ∧
      st'.terminal = TerminalState.Raw ∧
      st'.events = [Event.appendHistory "login", Event.pause,
        Event.run ["cloudpan189-go", "login"], Event.resume] := by
  obtain ⟨st', h1, h2, h3⟩ :=
    C5_terminal_raw Parse (fun _ => RunOutcome.returned (some (GoError.other "failed")))
      "cloudpan189-go" "login" { terminal := TerminalState.Raw, history := [], events := [] }
      rfl (Or.inr ⟨_, rfl⟩)
  exact ⟨st', h1, h2, h3.trans (by decide)⟩

/-- C8, as the code has it: a turn of the dispatch loop returns from the loop if and only
if the line-reading collaborator reports an error: on the abort signal it returns
silently, with no call and the state as it was, and on any other read failure it returns
after printing the error and doing nothing else; after a line read without error the
turn goes back to the prompt whenever the line has no token or `App.Run` returns,
whatever error the handler reported, and prints nothing of its own. -/
theorem C8_loop_end (parse : String → List String) (run : List String → RunOutcome)
    (argv0 : String) (read : ReadResult) (st : ShellState)
    (hraw : st.terminal = TerminalState.Raw) :
    (iteration parse run argv0 ReadResult.aborted st = StepResult.returned st) ∧
      (∀ err, iteration parse run argv0 (ReadResult.failed err) st =
        StepResult.returned
          { terminal := st.terminal, history := st.history,
            events := st.events ++ [Event.println err] }) ∧
      ((∃ st', iteration parse run argv0 read st = StepResult.returned st') ↔
        (read = ReadResult.aborted ∨ ∃ err, read = ReadResult.failed err)) ∧
      (∀ line, read = ReadResult.line line →
        (parse line = [] ∨ ∃ err, run ([argv0] ++ parse line) = RunOutcome.returned err) →
        ∃ st', iteration parse run argv0 read st = StepResult.next st' ∧
          st'.events = st.events ++ [Event.appendHistory line] ++
            (if parse line = [] then []
             else [Event.pause, Event.run ([argv0] ++ parse line), Event.resume])) := by
  refine ⟨rfl, fun _ => rfl, ?_, ?_⟩
  · cases read with
    | aborted => simp [iteration]
    | failed err => simp [iteration]
    | line l =>
      simp only [false_or, exists_false, iff_false, not_exists, reduceCtorEq]
      intro st'
      simp only [iteration, hraw, Pause, Resume]
      split_ifs
      · simp
      · cases run ([argv0] ++ parse l) <;> simp
  · intro line hl hgo
    subst hl
    by_cases hp : parse line = []
    · exact ⟨_, iteration_no_token parse run argv0 line st hp, by simp [hp]⟩
    · rcases hgo with h | ⟨err, herr⟩
      · exact absurd h hp
      · exact ⟨_, iteration_run_returned parse run argv0 line st err hraw hp herr,
          by simp [hp]⟩

/-- Witness of C8: from Raw, the abort signal returns with nothing logged, a read failure
`EOF` returns with the error printed, and the line `login` goes back to the prompt. -/
theorem C8_loop_end_witness :
    iteration Parse (fun _ => RunOutcome.returned none) "cloudpan189-go" ReadResult.aborted
        { terminal := TerminalState.Raw, history := [], events := [] } =
      StepResult.returned { terminal := TerminalState.Raw, history := [], events := [] } ∧
    iteration Parse (fun _ => RunOutcome.returned none) "cloudpan189-go"
        (ReadResult.failed "EOF")
        { terminal := TerminalState.Raw, history := [], events := [] } =
      StepResult.returned
        { terminal := TerminalState.Raw, history := [], events := [Event.println "EOF"] } ∧
    ∃ st', iteration Parse (fun _ => RunOutcome.returned none) "cloudpan189-go"
        (ReadResult.line "login")
        { terminal := TerminalState.Raw, history := [], events := [] } = StepResult.next st' :=
  have h := C8_loop_end Parse (fun _ => RunOutcome.returned none) "cloudpan189-go"
    (ReadResult.line "login") { terminal := TerminalState.Raw, history := [], events := [] } rfl
  ⟨h.1, h.2.1 "EOF",
    (h.2.2.2 "login" rfl (Or.inr ⟨none, rfl⟩)).elim (fun st' hst => ⟨st', hst.1⟩)⟩

/-- C8 fails as stated: a read failure that is not the abort signal makes the turn print
the error and return from the loop. -/
theorem C8_read_failure_counterexample :
    ReadResult.failed "EOF" ≠ ReadResult.aborted ∧
      iteration Parse (fun _ => RunOutcome.returned none) "cloudpan189-go"
          (ReadResult.failed "EOF")
          { terminal := TerminalState.Raw, history := [], events := [] } =
        StepResult.returned
          { terminal := TerminalState.Raw, history := [], events := [Event.println "EOF"] } := by
  decide


end Cloudpan
